import Mathlib

/-!
Verification of the Orthanc attribute-map core (`Core/DicomFormat/DicomMap.cpp`)
and of the static-resource HTTP responder (`Core/HttpServer/FilesystemHttpHandler.cpp`).

The C++ `DicomMap` wraps a `std::map<DicomTag, DicomValue*>`.  We embed it as an
association list strictly sorted by tag, which is exactly the representation
invariant `std::map` maintains: keys unique, enumeration in ascending key order.
Heap ownership (`delete` of the previous value on replacement, `delete` of all
values on clear) has no observable counterpart in a pure value semantics; what
remains observable — replacement, deep copy via `Clone`, clearing — is embedded
directly.
-/

namespace Orthanc

/-- A DICOM tag, two 16-bit integers (group, element); from `DicomTag(group, element)`
as used throughout `DicomMap.cpp`. -/
structure DicomTag where
  group : Nat
  element : Nat
deriving DecidableEq

/-- Modelled from the spec: `DicomTag.h` is not under `src/`; spec §3 states Tags are
"totally ordered (group major, element minor)", the order `std::map` sorts by. -/
def DicomTag.Lt (a b : DicomTag) : Prop :=
  a.group < b.group ∨ (a.group = b.group ∧ a.element < b.element)

instance (a b : DicomTag) : Decidable (DicomTag.Lt a b) := by
  unfold DicomTag.Lt
  infer_instance

theorem DicomTag.Lt_trans {a b c : DicomTag} (h1 : a.Lt b) (h2 : b.Lt c) : a.Lt c := by
  unfold DicomTag.Lt at *
  omega

theorem DicomTag.Lt_irrefl (a : DicomTag) : ¬ a.Lt a := by
  unfold DicomTag.Lt
  omega

theorem DicomTag.Lt_total {a b : DicomTag} (hne : a ≠ b) (h : ¬ a.Lt b) : b.Lt a := by
  have hfields : ¬ (a.group = b.group ∧ a.element = b.element) := by
    intro hc
    apply hne
    cases a
    cases b
    simp only [DicomTag.mk.injEq]
    exact ⟨hc.1, hc.2⟩
  unfold DicomTag.Lt at *
  omega

/-- Modelled from the spec: the concrete `DicomValue`/`DicomString` hierarchy is not
under `src/`; spec §2–§3 treat a Value as an opaque clonable holder of one
attribute's content, so we embed it as its content. -/
structure DicomValue where
  content : String
deriving DecidableEq

/-- Modelled from the spec: `clone()` "produces an independent copy with the same
logical content" (spec §3); in value semantics that is a content-preserving copy. -/
def DicomValue.Clone (v : DicomValue) : DicomValue :=
  DicomValue.mk v.content

theorem DicomValue.Clone_eq (v : DicomValue) : v.Clone = v := by
  cases v
  rfl

/-! ### List-level operations underlying the `std::map` member functions -/

/-- `map_.find(tag)` on the sorted association list: first entry with this key. -/
def findTag (t : DicomTag) : List (DicomTag × DicomValue) → Option DicomValue
  | [] => none
  | (u, w) :: rest => if u = t then some w else findTag t rest

/-- Order-preserving insert-or-replace: the effect of `DicomMap::SetValue`
(`DicomMap.cpp:86-102`) on the `std::map`: replace in place when the key is
found, otherwise insert at the sorted position. -/
def insertSorted (t : DicomTag) (v : DicomValue) :
    List (DicomTag × DicomValue) → List (DicomTag × DicomValue)
  | [] => [(t, v)]
  | (u, w) :: rest =>
    if t = u then (t, v) :: rest
    else if t.Lt u then (t, v) :: (u, w) :: rest
    else (u, w) :: insertSorted t v rest

/-- The effect of `DicomMap::Remove` (`DicomMap.cpp:190-198`) on the list:
erase the entry with this key when found, otherwise leave the list alone. -/
def removeTag (t : DicomTag) :
    List (DicomTag × DicomValue) → List (DicomTag × DicomValue)
  | [] => []
  | (u, w) :: rest => if u = t then rest else (u, w) :: removeTag t rest

/-- The `std::map` representation invariant: entries strictly sorted by tag. -/
def EntriesSorted (l : List (DicomTag × DicomValue)) : Prop :=
  l.Pairwise (fun p q => p.1.Lt q.1)

theorem mem_insertSorted {t : DicomTag} {v : DicomValue}
    {l : List (DicomTag × DicomValue)} {p : DicomTag × DicomValue}
    (h : p ∈ insertSorted t v l) : p = (t, v) ∨ p ∈ l := by
  induction l with
  | nil =>
    simp [insertSorted] at h
    simp [h]
  | cons hd tl ih =>
    obtain ⟨u, w⟩ := hd
    simp only [insertSorted] at h
    by_cases h1 : t = u
    · simp [h1] at h
      rcases h with h | h
      · left
        simp [h, h1]
      · right
        simp [h]
    · by_cases h2 : t.Lt u
      · simp [h1, h2] at h
        rcases h with h | h | h
        · left
          simp [h]
        · right
          simp [h]
        · right
          simp [h]
      · simp [h1, h2] at h
        rcases h with h | h
        · right
          simp [h]
        · rcases ih h with h3 | h3
          · left
            exact h3
          · right
            simp [h3]

theorem insertSorted_sorted {t : DicomTag} {v : DicomValue}
    {l : List (DicomTag × DicomValue)} (h : EntriesSorted l) :
    EntriesSorted (insertSorted t v l) := by
  induction l with
  | nil =>
    simp [insertSorted, EntriesSorted]
  | cons hd tl ih =>
    obtain ⟨u, w⟩ := hd
    simp only [EntriesSorted, List.pairwise_cons] at h
    obtain ⟨hhd, htl⟩ := h
    simp only [insertSorted]
    by_cases h1 : t = u
    · subst h1
      rw [if_pos rfl]
      simp only [EntriesSorted, List.pairwise_cons]
      exact ⟨hhd, htl⟩
    · by_cases h2 : t.Lt u
      · rw [if_neg h1, if_pos h2]
        simp only [EntriesSorted, List.pairwise_cons]
        refine ⟨?_, hhd, htl⟩
        intro q hq
        rcases List.mem_cons.mp hq with h3 | h3
        · subst h3
          exact h2
        · exact DicomTag.Lt_trans h2 (hhd q h3)
      · rw [if_neg h1, if_neg h2]
        simp only [EntriesSorted, List.pairwise_cons]
        constructor
        · intro q hq
          rcases mem_insertSorted hq with h3 | h3
          · subst h3
            exact DicomTag.Lt_total h1 h2
          · exact hhd q h3
        · exact ih htl

theorem removeTag_sublist (t : DicomTag) (l : List (DicomTag × DicomValue)) :
    (removeTag t l).Sublist l := by
  induction l with
  | nil => simp [removeTag]
  | cons hd tl ih =>
    obtain ⟨u, w⟩ := hd
    simp only [removeTag]
    by_cases h : u = t
    · simp only [if_pos h]
      exact List.sublist_cons_of_sublist _ (List.Sublist.refl tl)
    · simp only [if_neg h]
      exact List.Sublist.cons₂ _ ih

theorem removeTag_sorted {t : DicomTag} {l : List (DicomTag × DicomValue)}
    (h : EntriesSorted l) : EntriesSorted (removeTag t l) :=
  List.Pairwise.sublist (removeTag_sublist t l) h

theorem findTag_insertSorted (t' t : DicomTag) (v : DicomValue)
    (l : List (DicomTag × DicomValue)) :
    findTag t' (insertSorted t v l) = if t' = t then some v else findTag t' l := by
  induction l with
  | nil =>
    simp only [insertSorted, findTag]
    by_cases h : t' = t
    · subst h
      simp
    · have h' : ¬ t = t' := fun he => h he.symm
      simp [h, h']
  | cons hd tl ih =>
    obtain ⟨u, w⟩ := hd
    simp only [insertSorted]
    by_cases h1 : t = u
    · subst h1
      rw [if_pos rfl]
      simp only [findTag]
      by_cases h : t' = t
      · subst h
        simp
      · have h' : ¬ t = t' := fun he => h he.symm
        simp [h, h']
    · by_cases h2 : t.Lt u
      · rw [if_neg h1, if_pos h2]
        simp only [findTag]
        by_cases h : t' = t
        · subst h
          simp
        · have h' : ¬ t = t' := fun he => h he.symm
          simp [h, h']
      · rw [if_neg h1, if_neg h2]
        simp only [findTag]
        rw [ih]
        by_cases h3 : u = t'
        · subst h3
          have h4 : ¬ u = t := fun he => h1 he.symm
          simp [h4]
        · simp [h3]

theorem findTag_removeTag_ne (t' t : DicomTag) (hne : t' ≠ t)
    (l : List (DicomTag × DicomValue)) :
    findTag t' (removeTag t l) = findTag t' l := by
  induction l with
  | nil => simp [removeTag]
  | cons hd tl ih =>
    obtain ⟨u, w⟩ := hd
    simp only [removeTag, findTag]
    by_cases h : u = t
    · subst h
      have h' : ¬ u = t' := fun he => hne he.symm
      simp [h']
    · simp only [if_neg h, findTag]
      by_cases h2 : u = t'
      · simp [h2]
      · simp [h2, ih]

theorem removeTag_of_absent {t : DicomTag} {l : List (DicomTag × DicomValue)}
    (h : findTag t l = none) : removeTag t l = l := by
  induction l with
  | nil => simp [removeTag]
  | cons hd tl ih =>
    obtain ⟨u, w⟩ := hd
    simp only [findTag] at h
    by_cases h1 : u = t
    · simp [h1] at h
    · simp only [removeTag, if_neg h1]
      simp only [if_neg h1] at h
      rw [ih h]

/-- Number of entries carrying a given tag; used to state key uniqueness. -/
def countKey (t : DicomTag) (l : List (DicomTag × DicomValue)) : Nat :=
  l.countP (fun p => decide (p.1 = t))

theorem countKey_of_all_ne {t : DicomTag} {l : List (DicomTag × DicomValue)}
    (h : ∀ p ∈ l, p.1 ≠ t) : countKey t l = 0 := by
  induction l with
  | nil => simp [countKey]
  | cons hd tl ih =>
    simp only [countKey, List.countP_cons]
    have h1 : hd.1 ≠ t := h hd (List.mem_cons_self hd tl)
    have h2 : countKey t tl = 0 := ih fun p hp => h p (List.mem_cons_of_mem hd hp)
    simp only [countKey] at h2
    simp [h1, h2]

theorem countKey_eq_of_sorted {t : DicomTag} {l : List (DicomTag × DicomValue)}
    (h : EntriesSorted l) :
    countKey t l = if (findTag t l).isSome then 1 else 0 := by
  induction l with
  | nil => simp [countKey, findTag]
  | cons hd tl ih =>
    obtain ⟨u, w⟩ := hd
    rw [EntriesSorted, List.pairwise_cons] at h
    obtain ⟨hhd, htl⟩ := h
    simp only [countKey, List.countP_cons, findTag]
    by_cases h1 : u = t
    · subst h1
      have hz : countKey u tl = 0 := by
        apply countKey_of_all_ne
        intro p hp he
        exact DicomTag.Lt_irrefl u (he ▸ hhd p hp)
      simp only [countKey] at hz
      simp [hz]
    · have h2 := ih htl
      simp only [countKey] at h2
      simp [h1, h2]

/-! ### The `DicomMap` container -/

/-- `DicomMap` wraps `std::map<DicomTag, DicomValue*> map_`; the `sorted` field is
the representation invariant `std::map` maintains by construction (unique keys,
ascending key order). -/
structure DicomMap where
  entries : List (DicomTag × DicomValue)
  sorted : EntriesSorted entries

theorem DicomMap.eq_of_entries_eq {m1 m2 : DicomMap}
    (h : m1.entries = m2.entries) : m1 = m2 := by
  cases m1
  cases m2
  simp only at h
  subst h
  rfl

/-- A default-constructed `DicomMap()`: the empty `std::map`. -/
def DicomMap.empty : DicomMap :=
  DicomMap.mk [] List.Pairwise.nil

/-- `map_.find(tag)`, as an option instead of an iterator. -/
def DicomMap.find (m : DicomMap) (t : DicomTag) : Option DicomValue :=
  findTag t m.entries

/-- `DicomMap::SetValue` (`DicomMap.cpp:86-108`): if the tag exists, the old value
is destroyed and replaced in place; otherwise the pair is inserted. -/
def DicomMap.SetValue (m : DicomMap) (t : DicomTag) (v : DicomValue) : DicomMap :=
  DicomMap.mk (insertSorted t v m.entries) (insertSorted_sorted m.sorted)

/-- `DicomMap::Clear` (`DicomMap.cpp:113-121`): destroys every value and empties
the map, whatever it held. -/
def DicomMap.Clear (_ : DicomMap) : DicomMap :=
  DicomMap.mk [] List.Pairwise.nil

/-- Modelled from the spec: `HasTag` is declared in the absent `DicomMap.h`;
spec §4.1 describes it as the pure membership predicate. -/
def DicomMap.HasTag (m : DicomMap) (t : DicomTag) : Bool :=
  (m.find t).isSome

/-- `DicomMap::GetValue` (`DicomMap.cpp:175-187`): returns the stored value, or
throws `OrthancException("Inexistent tag")` when the tag is absent. -/
def DicomMap.GetValue (m : DicomMap) (t : DicomTag) : Except String DicomValue :=
  match m.find t with
  | none => Except.error "Inexistent tag"
  | some v => Except.ok v

/-- `DicomMap::Remove` (`DicomMap.cpp:190-198`): erases the entry if found,
otherwise does nothing. -/
def DicomMap.Remove (m : DicomMap) (t : DicomTag) : DicomMap :=
  DicomMap.mk (removeTag t m.entries) (removeTag_sorted m.sorted)

/-- `DicomMap::Clone` (`DicomMap.cpp:162-172`): a new map in which every value is
`it->second->Clone()`. -/
def DicomMap.Clone (m : DicomMap) : DicomMap :=
  DicomMap.mk (m.entries.map (fun p => (p.1, p.2.Clone))) (by
    have h := m.sorted
    unfold EntriesSorted at h ⊢
    exact List.Pairwise.map _ (fun a b hab => hab) h)

/-- The loop of `DicomMap::ExtractTags` (`DicomMap.cpp:130-137`): for each listed
tag present in the source, set a clone of its value in the accumulator. -/
def extractLoop (m : DicomMap) (acc : DicomMap) : List DicomTag → DicomMap
  | [] => acc
  | t :: rest =>
    match m.find t with
    | some v => extractLoop m (acc.SetValue t v.Clone) rest
    | none => extractLoop m acc rest

/-- `DicomMap::ExtractTags` (`DicomMap.cpp:124-138`): `result.Clear()`, then the
copy loop over the given tag list. -/
def DicomMap.ExtractTags (m : DicomMap) (result : DicomMap)
    (tags : List DicomTag) : DicomMap :=
  extractLoop m result.Clear tags

/-! ### The four per-level tag registries (`DicomMap.cpp:31-81`) -/

/-- `patientTags` (`DicomMap.cpp:31-40`). -/
def patientTags : List DicomTag :=
  [DicomTag.mk 0x0010 0x0010, DicomTag.mk 0x0010 0x0020, DicomTag.mk 0x0010 0x0030,
   DicomTag.mk 0x0010 0x0040, DicomTag.mk 0x0010 0x1000]

/-- `studyTags` (`DicomMap.cpp:42-52`). -/
def studyTags : List DicomTag :=
  [DicomTag.mk 0x0008 0x0020, DicomTag.mk 0x0008 0x0030, DicomTag.mk 0x0008 0x0050,
   DicomTag.mk 0x0008 0x1030, DicomTag.mk 0x0020 0x000d, DicomTag.mk 0x0020 0x0010]

/-- `seriesTags` (`DicomMap.cpp:54-70`); note it contains SeriesInstanceUID
(0020,000e). -/
def seriesTags : List DicomTag :=
  [DicomTag.mk 0x0008 0x0021, DicomTag.mk 0x0008 0x0031, DicomTag.mk 0x0008 0x0060,
   DicomTag.mk 0x0008 0x0070, DicomTag.mk 0x0008 0x1010, DicomTag.mk 0x0008 0x103e,
   DicomTag.mk 0x0018 0x0015, DicomTag.mk 0x0018 0x0024, DicomTag.mk 0x0018 0x1030,
   DicomTag.mk 0x0020 0x000e, DicomTag.mk 0x0020 0x0011, DicomTag.mk 0x0020 0x1002,
   DicomTag.mk 0x0054 0x0081]

/-- `instanceTags` (`DicomMap.cpp:72-81`). -/
def instanceTags : List DicomTag :=
  [DicomTag.mk 0x0008 0x0012, DicomTag.mk 0x0008 0x0013, DicomTag.mk 0x0008 0x0018,
   DicomTag.mk 0x0020 0x0012, DicomTag.mk 0x0020 0x0013, DicomTag.mk 0x0028 0x0008,
   DicomTag.mk 0x0054 0x1330]

/-- `DicomMap::ExtractPatientInformation` (`DicomMap.cpp:141-144`). -/
def DicomMap.ExtractPatientInformation (m result : DicomMap) : DicomMap :=
  m.ExtractTags result patientTags

/-- `DicomMap::ExtractStudyInformation` (`DicomMap.cpp:146-149`). -/
def DicomMap.ExtractStudyInformation (m result : DicomMap) : DicomMap :=
  m.ExtractTags result studyTags

/-- `DicomMap::ExtractSeriesInformation` (`DicomMap.cpp:151-154`). -/
def DicomMap.ExtractSeriesInformation (m result : DicomMap) : DicomMap :=
  m.ExtractTags result seriesTags

/-- `DicomMap::ExtractInstanceInformation` (`DicomMap.cpp:156-159`). -/
def DicomMap.ExtractInstanceInformation (m result : DicomMap) : DicomMap :=
  m.ExtractTags result instanceTags

/-! ### Find templates (`DicomMap.cpp:201-240`) -/

/-- Modelled from the spec: `DicomTag::ACCESSION_NUMBER` lives in the absent
`DicomTag.h`; spec §3 identifies AccessionNumber as (0008,0050). -/
def DicomTag.ACCESSION_NUMBER : DicomTag := DicomTag.mk 0x0008 0x0050

/-- Modelled from the spec: `DicomTag::PATIENT_ID`; spec §3: PatientID is (0010,0020). -/
def DicomTag.PATIENT_ID : DicomTag := DicomTag.mk 0x0010 0x0020

/-- Modelled from the spec: `DicomTag::STUDY_UID`; spec §3: StudyInstanceUID is
(0020,000D). -/
def DicomTag.STUDY_UID : DicomTag := DicomTag.mk 0x0020 0x000d

/-- Modelled from the spec: `DicomTag::SERIES_UID`; spec §3: SeriesInstanceUID is
(0020,000E). -/
def DicomTag.SERIES_UID : DicomTag := DicomTag.mk 0x0020 0x000e

/-- The loop of `SetupFindTemplate` (`DicomMap.cpp:207-210`): every listed tag is
set to the empty string (`result.SetValue(tags[i], "")`). -/
def templateLoop (acc : DicomMap) : List DicomTag → DicomMap
  | [] => acc
  | t :: rest => templateLoop (acc.SetValue t (DicomValue.mk "")) rest

/-- `SetupFindTemplate` (`DicomMap.cpp:201-211`): `result.Clear()`, then the loop. -/
def SetupFindTemplate (result : DicomMap) (tags : List DicomTag) : DicomMap :=
  templateLoop result.Clear tags

/-- `DicomMap::SetupFindPatientTemplate` (`DicomMap.cpp:213-216`). -/
def DicomMap.SetupFindPatientTemplate (result : DicomMap) : DicomMap :=
  SetupFindTemplate result patientTags

/-- `DicomMap::SetupFindStudyTemplate` (`DicomMap.cpp:218-223`). -/
def DicomMap.SetupFindStudyTemplate (result : DicomMap) : DicomMap :=
  ((SetupFindTemplate result studyTags).SetValue DicomTag.ACCESSION_NUMBER
      (DicomValue.mk "")).SetValue DicomTag.PATIENT_ID (DicomValue.mk "")

/-- `DicomMap::SetupFindSeriesTemplate` (`DicomMap.cpp:225-231`). -/
def DicomMap.SetupFindSeriesTemplate (result : DicomMap) : DicomMap :=
  (((SetupFindTemplate result seriesTags).SetValue DicomTag.ACCESSION_NUMBER
      (DicomValue.mk "")).SetValue DicomTag.PATIENT_ID
      (DicomValue.mk "")).SetValue DicomTag.STUDY_UID (DicomValue.mk "")

/-- `DicomMap::SetupFindInstanceTemplate` (`DicomMap.cpp:233-240`). -/
def DicomMap.SetupFindInstanceTemplate (result : DicomMap) : DicomMap :=
  ((((SetupFindTemplate result instanceTags).SetValue DicomTag.ACCESSION_NUMBER
      (DicomValue.mk "")).SetValue DicomTag.PATIENT_ID
      (DicomValue.mk "")).SetValue DicomTag.STUDY_UID
      (DicomValue.mk "")).SetValue DicomTag.SERIES_UID (DicomValue.mk "")

/-! ### Map-level lemmas -/

theorem find_SetValue (m : DicomMap) (t' t : DicomTag) (v : DicomValue) :
    (m.SetValue t v).find t' = if t' = t then some v else m.find t' :=
  findTag_insertSorted t' t v m.entries

theorem find_Clone (m : DicomMap) (t : DicomTag) : m.Clone.find t = m.find t := by
  show findTag t (m.entries.map fun p => (p.1, p.2.Clone)) = findTag t m.entries
  induction m.entries with
  | nil => simp [findTag]
  | cons hd tl ih =>
    obtain ⟨u, w⟩ := hd
    simp only [List.map_cons, findTag, DicomValue.Clone_eq]
    by_cases h : u = t
    · simp [h]
    · simp [h, ih]

theorem find_Remove_ne (m : DicomMap) (t' t : DicomTag) (h : t' ≠ t) :
    (m.Remove t).find t' = m.find t' :=
  findTag_removeTag_ne t' t h m.entries

theorem Remove_of_absent (m : DicomMap) (t : DicomTag) (h : m.HasTag t = false) :
    m.Remove t = m := by
  apply DicomMap.eq_of_entries_eq
  show removeTag t m.entries = m.entries
  apply removeTag_of_absent
  cases hf : m.find t with
  | none => exact hf
  | some v =>
    rw [DicomMap.HasTag, hf] at h
    simp at h

theorem countKey_find (m : DicomMap) (t : DicomTag) :
    countKey t m.entries = if (m.find t).isSome then 1 else 0 :=
  countKey_eq_of_sorted m.sorted

theorem find_extractLoop (m : DicomMap) (L : List DicomTag) (acc : DicomMap)
    (t : DicomTag) :
    (extractLoop m acc L).find t =
      if t ∈ L ∧ (m.find t).isSome then m.find t else acc.find t := by
  induction L generalizing acc with
  | nil => simp [extractLoop]
  | cons u rest ih =>
    simp only [extractLoop]
    cases hmu : m.find u with
    | some v =>
      rw [ih, find_SetValue]
      by_cases h : t = u
      · subst h
        by_cases hmem : t ∈ rest <;>
          simp [hmem, hmu, DicomValue.Clone_eq]
      · simp [h, List.mem_cons]
    | none =>
      rw [ih]
      by_cases h : t = u
      · subst h
        simp [hmu, List.mem_cons]
      · simp [h, List.mem_cons]

theorem find_templateLoop (L : List DicomTag) (acc : DicomMap) (t : DicomTag) :
    (templateLoop acc L).find t =
      if t ∈ L then some (DicomValue.mk "") else acc.find t := by
  induction L generalizing acc with
  | nil => simp [templateLoop]
  | cons u rest ih =>
    simp only [templateLoop]
    rw [ih, find_SetValue]
    by_cases h : t = u
    · subst h
      by_cases hmem : t ∈ rest <;> simp [hmem]
    · simp [h, List.mem_cons]

theorem find_ExtractTags (m out : DicomMap) (L : List DicomTag) (t : DicomTag) :
    (m.ExtractTags out L).find t = if t ∈ L then m.find t else none := by
  rw [DicomMap.ExtractTags, find_extractLoop]
  cases hf : m.find t with
  | none =>
    simp [hf, DicomMap.Clear, DicomMap.find, findTag]
  | some v =>
    by_cases hmem : t ∈ L <;>
      simp [hmem, hf, DicomMap.Clear, DicomMap.find, findTag]

theorem countKey_le_one (m : DicomMap) (t : DicomTag) : countKey t m.entries ≤ 1 := by
  rw [countKey_find]
  by_cases h : (m.find t).isSome <;> simp [h]

/-! ### The static-resource HTTP responder -/

/-- The observable responses `FilesystemHttpHandler::Handle` emits through its
`HttpOutput` (`FilesystemHttpHandler.cpp:105-141`): `SendMethodNotAllowedError`,
`AnswerFileAutodetectContentType`, `OutputDirectoryContent`, or a 404 header. -/
inductive HttpResponse where
  | methodNotAllowed (allowed : String)
  | fileContent (path : List String)
  | directoryListing (path : List String)
  | notFound
deriving DecidableEq

/-- Modelled from the spec: the filesystem is an external collaborator (spec §1);
`Handle` consults only existence, regular-file and directory status of a path, so
it is embedded as those three observations.  A path is its component list. -/
structure Filesystem where
  existsPath : List String → Bool
  isRegularFile : List String → Bool
  isDirectory : List String → Bool

/-- The handler state: `PImpl::baseUri_`, `PImpl::root_`
(`FilesystemHttpHandler.cpp:30-34`) and the `listDirectoryContent_` flag. -/
structure FilesystemHttpHandler where
  baseUri : List String
  root : List String
  listDirectoryContent : Bool
deriving DecidableEq

/-- `FilesystemHttpHandler::FilesystemHttpHandler` (`FilesystemHttpHandler.cpp:83-96`):
stores the base URI and root, sets `listDirectoryContent_ = false`, and throws
unless the root exists and is a directory. -/
def FilesystemHttpHandler.construct (fs : Filesystem) (baseUri root : List String) :
    Except String FilesystemHttpHandler :=
  if !(fs.existsPath root) || !(fs.isDirectory root) then
    Except.error "The path does not point to a directory"
  else
    Except.ok (FilesystemHttpHandler.mk baseUri root false)

/-- The path-resolution loop of `Handle` (`FilesystemHttpHandler.cpp:121-125`):
`p = root_` followed by `p /= uri[i]` for `i` from `baseUri_.size()` on. -/
def FilesystemHttpHandler.resolvePath (h : FilesystemHttpHandler)
    (uri : List String) : List String :=
  h.root ++ uri.drop h.baseUri.length

/-- `FilesystemHttpHandler::Handle` (`FilesystemHttpHandler.cpp:105-141`). -/
def FilesystemHttpHandler.Handle (h : FilesystemHttpHandler) (fs : Filesystem)
    (method : String) (uri : List String) : HttpResponse :=
  if method ≠ "GET" then HttpResponse.methodNotAllowed "GET"
  else if fs.existsPath (h.resolvePath uri) && fs.isRegularFile (h.resolvePath uri) then
    HttpResponse.fileContent (h.resolvePath uri)
  else if h.listDirectoryContent && fs.existsPath (h.resolvePath uri)
      && fs.isDirectory (h.resolvePath uri) then
    HttpResponse.directoryListing (h.resolvePath uri)
  else
    HttpResponse.notFound

/-! ### The claims -/

/-- The source map of the end-to-end scenario: PatientID="P1", StudyInstanceUID="S1",
SeriesInstanceUID="SE1", Modality="CT". -/
def scenarioMap : DicomMap :=
  (((DicomMap.empty.SetValue DicomTag.PATIENT_ID (DicomValue.mk "P1")).SetValue
      DicomTag.STUDY_UID (DicomValue.mk "S1")).SetValue
      DicomTag.SERIES_UID (DicomValue.mk "SE1")).SetValue
      (DicomTag.mk 0x0008 0x0060) (DicomValue.mk "CT")

/-- The result of `ExtractSeriesInformation` on the scenario map. -/
def scenarioResult : DicomMap :=
  scenarioMap.ExtractSeriesInformation DicomMap.empty

/-- Claim C1, counterexample: the claim asserts that SeriesInstanceUID (0020,000E) is
absent from the result of `ExtractSeriesInformation` on the scenario map; in fact
`seriesTags` (`DicomMap.cpp:66`) contains (0020,000E), so the extracted map carries
SeriesInstanceUID="SE1" and the claim is false at this input. -/
theorem extractSeries_scenario_contains_seriesUid :
    scenarioResult.HasTag DicomTag.SERIES_UID = true ∧
    scenarioResult.find DicomTag.SERIES_UID = some (DicomValue.mk "SE1") :=
  ⟨rfl, rfl⟩

/-- Claim C1, amended: on the scenario map, `ExtractSeriesInformation` returns a map
containing, among the four inputs, exactly Modality="CT" and SeriesInstanceUID="SE1"
(both Series-native); PatientID and StudyInstanceUID are absent from the result. -/
theorem extractSeries_scenario_amended :
    scenarioResult.find (DicomTag.mk 0x0008 0x0060) = some (DicomValue.mk "CT") ∧
    scenarioResult.find DicomTag.SERIES_UID = some (DicomValue.mk "SE1") ∧
    scenarioResult.find DicomTag.PATIENT_ID = none ∧
    scenarioResult.find DicomTag.STUDY_UID = none :=
  ⟨rfl, rfl, rfl, rfl⟩

/-- Claim C2: for every tag list `L` and maps `m`, `out`, `m.ExtractTags out L` holds
exactly the tags of `L` present in `m`, each with content equal to the corresponding
entry of `m`; tags of `L` absent from `m` never appear, and the call is total. -/
theorem ExtractTags_projection (m out : DicomMap) (L : List DicomTag) (t : DicomTag) :
    (m.ExtractTags out L).find t = (if t ∈ L then m.find t else none) ∧
    ((m.ExtractTags out L).HasTag t = true ↔ t ∈ L ∧ m.HasTag t = true) := by
  refine ⟨find_ExtractTags m out L t, ?_⟩
  rw [DicomMap.HasTag, find_ExtractTags]
  by_cases hmem : t ∈ L
  · simp [hmem, DicomMap.HasTag]
  · simp [hmem]

/-- Claim C3: the Series find template maps exactly
`seriesTags ∪ {AccessionNumber, PatientID, StudyInstanceUID}` to the empty string,
the Instance template maps exactly `instanceTags` plus all four cascading keys to
the empty string, and each template has at most one entry per tag. -/
theorem setupFindSeriesInstanceTemplate_keys (target : DicomMap) (t : DicomTag) :
    ((target.SetupFindSeriesTemplate).find t =
      if t ∈ seriesTags ∨ t = DicomTag.ACCESSION_NUMBER ∨ t = DicomTag.PATIENT_ID
          ∨ t = DicomTag.STUDY_UID
      then some (DicomValue.mk "") else none) ∧
    countKey t (target.SetupFindSeriesTemplate).entries ≤ 1 ∧
    ((target.SetupFindInstanceTemplate).find t =
      if t ∈ instanceTags ∨ t = DicomTag.ACCESSION_NUMBER ∨ t = DicomTag.PATIENT_ID
          ∨ t = DicomTag.STUDY_UID ∨ t = DicomTag.SERIES_UID
      then some (DicomValue.mk "") else none) ∧
    countKey t (target.SetupFindInstanceTemplate).entries ≤ 1 := by
  refine ⟨?_, countKey_le_one _ _, ?_, countKey_le_one _ _⟩
  · rw [DicomMap.SetupFindSeriesTemplate, find_SetValue, find_SetValue, find_SetValue,
      SetupFindTemplate, find_templateLoop]
    simp only [DicomMap.Clear, DicomMap.find, findTag]
    split_ifs <;> simp_all
  · rw [DicomMap.SetupFindInstanceTemplate, find_SetValue, find_SetValue, find_SetValue,
      find_SetValue, SetupFindTemplate, find_templateLoop]
    simp only [DicomMap.Clear, DicomMap.find, findTag]
    split_ifs <;> simp_all

/-- Claim C4: `SetValue` is insert-or-replace and always succeeds: after
`SetValue t v1` then `SetValue t v2`, `GetValue t` returns `v2` and the map holds
exactly one entry for `t`. -/
theorem SetValue_overwrite_unique (m : DicomMap) (t : DicomTag) (v1 v2 : DicomValue) :
    ((m.SetValue t v1).SetValue t v2).GetValue t = Except.ok v2 ∧
    countKey t ((m.SetValue t v1).SetValue t v2).entries = 1 := by
  constructor
  · rw [DicomMap.GetValue, find_SetValue]
    simp
  · rw [countKey_find, find_SetValue]
    simp

/-- Claim C5: `GetValue t` fails with the tag-not-found error exactly when
`HasTag t` is false, and returns the owned value exactly when present; in the pure
embedding `GetValue` returns no changed map, so it is side-effect-free by
construction. -/
theorem GetValue_TagNotFound_spec (m : DicomMap) (t : DicomTag) :
    (m.GetValue t = Except.error "Inexistent tag" ↔ m.HasTag t = false) ∧
    (∀ v, m.GetValue t = Except.ok v ↔ m.find t = some v) := by
  cases hf : m.find t with
  | none => simp [DicomMap.GetValue, DicomMap.HasTag, hf]
  | some w => simp [DicomMap.GetValue, DicomMap.HasTag, hf]

/-- Claim C6: `Clone` yields a map with equal content whose values are independent
deep copies: lookups in the clone agree with the source, and mutating the clone at
any other tag (`SetValue`, `Remove`) or clearing it leaves every observation on it
derivable from the source alone — in value semantics the source itself is a pure
value that no mutation of the clone can alter, and vice versa. -/
theorem Clone_independence (m : DicomMap) (t u : DicomTag) (v : DicomValue)
    (h : t ≠ u) :
    m.Clone.find t = m.find t ∧
    (m.Clone.SetValue u v).find t = m.find t ∧
    (m.Clone.Remove u).find t = m.find t ∧
    (m.Clone.Clear).find t = none := by
  refine ⟨find_Clone m t, ?_, ?_, ?_⟩
  · rw [find_SetValue]
    simp [h, find_Clone]
  · rw [find_Remove_ne _ _ _ h, find_Clone]
  · simp [DicomMap.Clear, DicomMap.find, findTag]

/-- Witness for C6 at a concrete map and tags. -/
theorem Clone_independence_witness :
    (DicomTag.mk 1 1 ≠ DicomTag.mk 2 2) ∧
    ((DicomMap.empty.SetValue (DicomTag.mk 1 1) (DicomValue.mk "a")).Clone.find
        (DicomTag.mk 1 1) =
      (DicomMap.empty.SetValue (DicomTag.mk 1 1) (DicomValue.mk "a")).find
        (DicomTag.mk 1 1)) :=
  ⟨by decide,
   (Clone_independence (DicomMap.empty.SetValue (DicomTag.mk 1 1) (DicomValue.mk "a"))
      (DicomTag.mk 1 1) (DicomTag.mk 2 2) (DicomValue.mk "b") (by decide)).1⟩

/-- Claim C7: `Clear` empties the map and is idempotent, and `Remove` on an absent
tag is a no-op, not an error. -/
theorem Clear_idempotent_Remove_absent_noop (m : DicomMap) (t : DicomTag)
    (h : m.HasTag t = false) :
    m.Clear.Clear = m.Clear ∧ (m.Clear).entries = [] ∧ m.Remove t = m :=
  ⟨rfl, rfl, Remove_of_absent m t h⟩

/-- Witness for C7 at a concrete map and absent tag. -/
theorem Clear_idempotent_Remove_absent_noop_witness :
    ((DicomMap.empty.SetValue (DicomTag.mk 1 1) (DicomValue.mk "a")).HasTag
        (DicomTag.mk 2 2) = false) ∧
    (DicomMap.empty.SetValue (DicomTag.mk 1 1) (DicomValue.mk "a")).Remove
        (DicomTag.mk 2 2) =
      DicomMap.empty.SetValue (DicomTag.mk 1 1) (DicomValue.mk "a") :=
  ⟨by decide,
   (Clear_idempotent_Remove_absent_noop
      (DicomMap.empty.SetValue (DicomTag.mk 1 1) (DicomValue.mk "a"))
      (DicomTag.mk 2 2) (by decide)).2.2⟩

/-- Claim C8: any method other than GET is answered with method-not-allowed
(advertising GET) and nothing else; the response does not depend on the filesystem,
so no filesystem access can influence (or be required by) the rejection. -/
theorem Handle_rejects_non_get (h : FilesystemHttpHandler) (fs fs2 : Filesystem)
    (method : String) (uri : List String) (hm : method ≠ "GET") :
    h.Handle fs method uri = HttpResponse.methodNotAllowed "GET" ∧
    h.Handle fs method uri = h.Handle fs2 method uri := by
  have h1 : h.Handle fs method uri = HttpResponse.methodNotAllowed "GET" := by
    rw [FilesystemHttpHandler.Handle, if_pos hm]
  have h2 : h.Handle fs2 method uri = HttpResponse.methodNotAllowed "GET" := by
    rw [FilesystemHttpHandler.Handle, if_pos hm]
  exact ⟨h1, h1.trans h2.symm⟩

/-- A filesystem in which nothing exists, for witnesses. -/
def emptyFs : Filesystem :=
  Filesystem.mk (fun _ => false) (fun _ => false) (fun _ => false)

/-- Witness for C8 with method POST. -/
theorem Handle_rejects_non_get_witness :
    ("POST" ≠ "GET") ∧
    (FilesystemHttpHandler.mk [] [] false).Handle emptyFs "POST" [] =
      HttpResponse.methodNotAllowed "GET" :=
  ⟨by decide,
   (Handle_rejects_non_get (FilesystemHttpHandler.mk [] [] false) emptyFs emptyFs
      "POST" [] (by decide)).1⟩

/-- Claim C9: a freshly constructed handler has directory listing disabled, so a GET
whose resolved path is an existing directory that is not a regular file is answered
with 404 not-found rather than a listing. -/
theorem fresh_handler_directory_notFound (fs fs2 : Filesystem)
    (baseUri root : List String) (h : FilesystemHttpHandler) (uri : List String)
    (hc : FilesystemHttpHandler.construct fs baseUri root = Except.ok h)
    (hex : fs2.existsPath (h.resolvePath uri) = true)
    (hdir : fs2.isDirectory (h.resolvePath uri) = true)
    (hreg : fs2.isRegularFile (h.resolvePath uri) = false) :
    h.listDirectoryContent = false ∧
    h.Handle fs2 "GET" uri = HttpResponse.notFound := by
  have hld : h.listDirectoryContent = false := by
    rw [FilesystemHttpHandler.construct] at hc
    split at hc
    · simp at hc
    · injection hc with h2
      subst h2
      rfl
  refine ⟨hld, ?_⟩
  rw [FilesystemHttpHandler.Handle]
  simp [hex, hdir, hreg, hld]

/-- A filesystem holding only a root directory and one subdirectory, for witnesses. -/
def dirFs : Filesystem :=
  Filesystem.mk (fun p => p == ([] : List String) || p == ["d"]) (fun _ => false)
    (fun p => p == ([] : List String) || p == ["d"])

/-- Witness for C9: a fresh handler over `dirFs` answers 404 for the subdirectory. -/
theorem fresh_handler_directory_notFound_witness :
    FilesystemHttpHandler.construct dirFs [] [] =
      Except.ok (FilesystemHttpHandler.mk [] [] false) ∧
    (FilesystemHttpHandler.mk [] [] false).Handle dirFs "GET" ["d"] =
      HttpResponse.notFound :=
  ⟨rfl,
   (fresh_handler_directory_notFound dirFs dirFs [] []
      (FilesystemHttpHandler.mk [] [] false) ["d"] rfl rfl rfl rfl).2⟩

/-- Claim C10: `ExtractTags` and `SetupFindTemplate` first clear the caller-supplied
output map, so the final content is exactly the computed projection or template,
independent of whatever the output map held before the call. -/
theorem ExtractTags_templates_ignore_prior_output (m out out2 : DicomMap)
    (L : List DicomTag) (t : DicomTag) :
    m.ExtractTags out L = m.ExtractTags out2 L ∧
    SetupFindTemplate out L = SetupFindTemplate out2 L ∧
    (m.ExtractTags out L).find t = (if t ∈ L then m.find t else none) ∧
    (SetupFindTemplate out L).find t =
      (if t ∈ L then some (DicomValue.mk "") else none) := by
  refine ⟨rfl, rfl, find_ExtractTags m out L t, ?_⟩
  rw [SetupFindTemplate, find_templateLoop]
  by_cases hmem : t ∈ L <;> simp [hmem, DicomMap.Clear, DicomMap.find, findTag]

end Orthanc
